import Mathlib

/-!
Shallow embedding of the Mask R-CNN post-processing utilities
(`src/mrcnn/utils/utils.py` and the NMS dispatcher `src/nms/pth_nms.py`).

Numeric tensors are modelled over `ℚ` (idealised exact arithmetic for the
float computations) and `ℤ` (for integer tensors).  Vectorised numpy/torch
operations become elementwise operations on per-box structures or lists.
The transcendental functions `torch.exp` / `torch.log` used by the box
delta codec are modelled as explicit function parameters `fexp` / `flog`,
so every definition stays computable; the algebraic relationship between
the two functions becomes an explicit hypothesis where a theorem needs it.
-/

namespace MaskRCNN

/-- A box in the `(y1, x1, y2, x2)` layout used throughout `utils.py`. -/
structure Box where
  y1 : ℚ
  x1 : ℚ
  y2 : ℚ
  x2 : ℚ
deriving DecidableEq

/-- A box-regression delta `(dy, dx, dh, dw)` as consumed by
`apply_box_deltas` and produced by `box_refinement`. -/
structure Delta where
  dy : ℚ
  dx : ℚ
  dh : ℚ
  dw : ℚ
deriving DecidableEq

/-- `apply_box_deltas` (utils.py lines 39-65), per box.  The source is
batched over `[batch, N]`; the computation is elementwise per box, which is
what we model.  `torch.exp` is the parameter `fexp`. -/
def apply_box_deltas (fexp : ℚ → ℚ) (b : Box) (d : Delta) : Box :=
  let height := b.y2 - b.y1
  let width := b.x2 - b.x1
  let center_y := b.y1 + 0.5 * height
  let center_x := b.x1 + 0.5 * width
  let center_y' := center_y + d.dy * height
  let center_x' := center_x + d.dx * width
  let height' := height * fexp d.dh
  let width' := width * fexp d.dw
  let y1 := center_y' - 0.5 * height'
  let x1 := center_x' - 0.5 * width'
  let y2 := y1 + height'
  let x2 := x1 + width'
  ⟨y1, x1, y2, x2⟩

/-- `box_refinement` (utils.py lines 160-180), per box pair.  `torch.log`
is the parameter `flog`. -/
def box_refinement (flog : ℚ → ℚ) (box gt_box : Box) : Delta :=
  let height := box.y2 - box.y1
  let width := box.x2 - box.x1
  let center_y := box.y1 + 0.5 * height
  let center_x := box.x1 + 0.5 * width
  let gt_height := gt_box.y2 - gt_box.y1
  let gt_width := gt_box.x2 - gt_box.x1
  let gt_center_y := gt_box.y1 + 0.5 * gt_height
  let gt_center_x := gt_box.x1 + 0.5 * gt_width
  let dy := (gt_center_y - center_y) / height
  let dx := (gt_center_x - center_x) / width
  let dh := flog (gt_height / height)
  let dw := flog (gt_width / width)
  ⟨dy, dx, dh, dw⟩

/-- `to_img_domain` (utils.py lines 654-670), per box: shift by the window
origin, then scale by `image_shape / window_extent` on each axis. -/
def to_img_domain (b : Box) (window : Box) (imageH imageW : ℚ) : Box :=
  let h_scale := imageH / (window.y2 - window.y1)
  let w_scale := imageW / (window.x2 - window.x1)
  ⟨(b.y1 - window.y1) * h_scale,
   (b.x1 - window.x1) * w_scale,
   (b.y2 - window.y1) * h_scale,
   (b.x2 - window.x1) * w_scale⟩

/-- The clamped intersection area computed inside `compute_iou`
(utils.py lines 130-135):
`max(x2 - x1, 0) * max(y2 - y1, 0)` over the clamped extents. -/
def interArea (box b : Box) : ℚ :=
  max (min box.x2 b.x2 - max box.x1 b.x1) 0 *
  max (min box.y2 b.y2 - max box.y1 b.y1) 0

/-- The scalar body of `compute_iou` (utils.py lines 120-138) for one pair
of boxes: clamped intersection, then
`intersection / (box_area + boxes_area - intersection)`. -/
def iouPair (box b : Box) (box_area b_area : ℚ) : ℚ :=
  interArea box b / (box_area + b_area - interArea box b)

/-- `compute_iou` (utils.py lines 120-138): the vectorised map of
`iouPair` over the second argument's rows with their precomputed areas. -/
def compute_iou (box : Box) (boxes : List Box) (box_area : ℚ)
    (boxes_area : List ℚ) : List ℚ :=
  List.zipWith (fun b a => iouPair box b box_area a) boxes boxes_area

/-- Area of a box in the exclusive float convention used by
`compute_overlaps` and by the spec's Box data model. -/
def boxArea (b : Box) : ℚ := (b.y2 - b.y1) * (b.x2 - b.x1)

/-- The box invariant from the spec's data model: `y2 ≥ y1`, `x2 ≥ x1`. -/
def ValidBox (b : Box) : Prop := b.y1 ≤ b.y2 ∧ b.x1 ≤ b.x2

instance (b : Box) : Decidable (ValidBox b) := by
  unfold ValidBox; infer_instance

/-- Two boxes do not overlap: their intersection rectangle is empty (one
of the clamped extents is non-positive). -/
def DisjointBoxes (a b : Box) : Prop :=
  min a.y2 b.y2 ≤ max a.y1 b.y1 ∨ min a.x2 b.x2 ≤ max a.x1 b.x1

instance (a b : Box) : Decidable (DisjointBoxes a b) := by
  unfold DisjointBoxes; infer_instance

/-- `compose_image_meta` (utils.py lines 207-225): the flat record is the
straight concatenation `[image_id] + shape(3) + window(4) + active ids`. -/
def compose_image_meta (image_id : ℤ) (image_shape : ℤ × ℤ × ℤ)
    (window : ℤ × ℤ × ℤ × ℤ) (active_class_ids : List ℤ) : List ℤ :=
  [image_id]
    ++ [image_shape.1, image_shape.2.1, image_shape.2.2]
    ++ [window.1, window.2.1, window.2.2.1, window.2.2.2]
    ++ active_class_ids

/-- `parse_image_meta` (utils.py lines 228-236) applied to one row of the
batch: slices at the fixed offsets `0`, `1:4`, `4:8`, `8:`. -/
def parse_image_meta (meta : List ℤ) :
    ℤ × (ℤ × ℤ × ℤ) × (ℤ × ℤ × ℤ × ℤ) × List ℤ :=
  (meta.getD 0 0,
   (meta.getD 1 0, meta.getD 2 0, meta.getD 3 0),
   (meta.getD 4 0, meta.getD 5 0, meta.getD 6 0, meta.getD 7 0),
   meta.drop 8)

/-- Python's `round` (banker's rounding, ties to even), used by
`resize_image` through `round(h * scale)` / `round(w * scale)`. -/
def pyRound (q : ℚ) : ℤ :=
  let f := ⌊q⌋
  let r := q - (f : ℚ)
  if r < 1/2 then f
  else if 1/2 < r then f + 1
  else if f % 2 = 0 then f else f + 1

/-- Python truthiness of an optional int argument (`if min_dim:` is false
for both `None` and `0`). -/
def truthyInt : Option ℤ → Bool
  | none => false
  | some v => v ≠ 0

/-- Python truthiness of an optional float argument. -/
def truthyQ : Option ℚ → Bool
  | none => false
  | some v => v ≠ 0

/-- The failure modes of `resize_image`: the explicit
`raise Exception("Mode ... not supported")`, the `assert min_dim % 64 == 0`
(a geometry precondition), Python `TypeError` from arithmetic on a missing
(`None`) argument, and `ValueError` from `np.pad` with negative padding or
`random.randint` on an empty range. -/
inductive ResizeError where
  | unsupportedMode
  | geometryPrecondition
  | typeError
  | valueError
deriving DecidableEq

/-- The tuple returned by `resize_image`: the resized image is tracked by
its height and width, plus `window`, `scale`, `padding`, `crop` exactly as
in the source. -/
structure ResizeResult where
  height : ℤ
  width : ℤ
  window : ℤ × ℤ × ℤ × ℤ
  scale : ℚ
  padding : (ℤ × ℤ) × (ℤ × ℤ) × (ℤ × ℤ)
  crop : Option (ℤ × ℤ × ℤ × ℤ)
deriving DecidableEq

/-- `resize_image` (utils.py lines 392-501), tracking image shape only
(pixel content does not matter for the geometry claims).  `randY`/`randX`
stand for the two `random.randint` draws of `crop` mode, which is the one
nondeterministic point of the function. -/
def resize_image (h w : ℤ) (min_dim max_dim : Option ℤ) (min_scale : Option ℚ)
    (mode : String) (randY randX : ℤ) : Except ResizeError ResizeResult :=
  if mode = "none" then
    .ok ⟨h, w, (0, 0, h, w), 1, ((0, 0), (0, 0), (0, 0)), none⟩
  else
    -- `if min_dim and mode != "pad64": scale = max(1, min_dim / min(h, w))`
    let scale1 : ℚ :=
      if truthyInt min_dim ∧ mode ≠ "pad64" then
        max 1 ((min_dim.getD 0 : ℚ) / ((min h w : ℤ) : ℚ))
      else 1
    -- `if min_scale: scale = max(scale, min_scale)`
    let scale2 : ℚ :=
      if truthyQ min_scale then max scale1 (min_scale.getD 0) else scale1
    -- `if mode == "pad64": scale = min_dim / max(h, w)` (TypeError on None)
    match (if mode = "pad64" then
            match min_dim with
            | none => Except.error ResizeError.typeError
            | some m => Except.ok ((m : ℚ) / ((max h w : ℤ) : ℚ))
          else Except.ok scale2 : Except ResizeError ℚ) with
    | .error e => .error e
    | .ok scale3 =>
      -- `if max_dim and mode == "square": ... scale = max_dim / image_max`
      let scale4 : ℚ :=
        if truthyInt max_dim ∧ mode = "square" then
          if max_dim.getD 0 < pyRound (((max h w : ℤ) : ℚ) * scale3) then
            (max_dim.getD 0 : ℚ) / ((max h w : ℤ) : ℚ)
          else scale3
        else scale3
      -- `if scale != 1: image = skimage.transform.resize(...)`
      let h1 : ℤ := if scale4 ≠ 1 then pyRound ((h : ℚ) * scale4) else h
      let w1 : ℤ := if scale4 ≠ 1 then pyRound ((w : ℚ) * scale4) else w
      if mode = "square" then
        match max_dim with
        | none => .error .typeError
        | some M =>
          let top_pad := (M - h1).fdiv 2
          let bottom_pad := M - h1 - top_pad
          let left_pad := (M - w1).fdiv 2
          let right_pad := M - w1 - left_pad
          if top_pad < 0 ∨ bottom_pad < 0 ∨ left_pad < 0 ∨ right_pad < 0 then
            .error .valueError
          else
            .ok ⟨h1 + top_pad + bottom_pad, w1 + left_pad + right_pad,
                 (top_pad, left_pad, h1 + top_pad, w1 + left_pad), scale4,
                 ((top_pad, bottom_pad), (left_pad, right_pad), (0, 0)), none⟩
      else if mode = "pad64" then
        match min_dim with
        | none => .error .typeError
        | some m =>
          -- `assert min_dim % 64 == 0`
          if m % 64 ≠ 0 then .error .geometryPrecondition
          else
            let top_pad := if m ≠ h1 then (m - h1).fdiv 2 else 0
            let bottom_pad := if m ≠ h1 then m - h1 - (m - h1).fdiv 2 else 0
            -- `if max_dim != w:` — on `None` this is true and the pad
            -- arithmetic raises TypeError
            match max_dim with
            | none => .error .typeError
            | some M =>
              let left_pad := if M ≠ w1 then (M - w1).fdiv 2 else 0
              let right_pad := if M ≠ w1 then M - w1 - (M - w1).fdiv 2 else 0
              if top_pad < 0 ∨ bottom_pad < 0 ∨ left_pad < 0 ∨ right_pad < 0
              then .error .valueError
              else
                .ok ⟨h1 + top_pad + bottom_pad, w1 + left_pad + right_pad,
                     (top_pad, left_pad, h1 + top_pad, w1 + left_pad), scale4,
                     ((top_pad, bottom_pad), (left_pad, right_pad), (0, 0)),
                     none⟩
      else if mode = "crop" then
        match min_dim with
        | none => .error .typeError
        | some m =>
          if h1 - m < 0 ∨ w1 - m < 0 then .error .valueError
          else
            .ok ⟨m, m, (0, 0, m, m), scale4, ((0, 0), (0, 0), (0, 0)),
                 some (randY, randX, m, m)⟩
      else .error .unsupportedMode

/-- Box with integer coordinates, as produced by
`to_img_domain(...).to(torch.int32)` in `unmold_boxes`. -/
structure IntBox where
  y1 : ℤ
  x1 : ℤ
  y2 : ℤ
  x2 : ℤ
deriving DecidableEq

instance : Inhabited IntBox := ⟨⟨0, 0, 0, 0⟩⟩

/-- `torch.Tensor.to(torch.int32)`: truncation toward zero. -/
def truncQ (q : ℚ) : ℤ := if 0 ≤ q then ⌊q⌋ else -⌊-q⌋

/-- Conversion of a rational box to `int32` coordinates, one `truncQ` per
coordinate. -/
def truncBox (b : Box) : IntBox :=
  ⟨truncQ b.y1, truncQ b.x1, truncQ b.y2, truncQ b.x2⟩

/-- The per-box degeneracy test of `remove_zero_area`
(utils.py lines 637-641).  In the source, `dx = y2 - y1` (the height) and
`dy = x2 - x1` (the width); a box is skipped when
`dx*dy <= 0 or dx <= 2 or dy <= 2`. -/
def skipBox (b : IntBox) : Bool :=
  let dx := b.y2 - b.y1
  let dy := b.x2 - b.x1
  decide (dx * dy ≤ 0) || decide (dx ≤ 2) || decide (dy ≤ 2)

/-- The error raised by `remove_zero_area` when every box is degenerate
(`NoPositiveAreaError`, utils.py lines 31-32 and 643-644). -/
inductive UnmoldError where
  | noPositiveArea
deriving DecidableEq

/-- `remove_zero_area` (utils.py lines 634-651): select the indices whose
box is not degenerate; raise `NoPositiveAreaError` when none survives.
The source's `if keep_ix.shape[0] != boxes.shape[0]` shortcut (skip the
re-indexing when nothing was dropped) is the identity in that case, so the
unconditional re-indexing below has the same semantics. -/
def remove_zero_area {μ : Type} (boxes : List IntBox) (class_ids : List ℤ)
    (masks : List μ) (scores : List ℚ) (md : μ) :
    Except UnmoldError (List IntBox × List ℤ × List μ × List ℚ) :=
  let keep_ix := (List.range boxes.length).filter
    (fun i => !skipBox (boxes.getD i default))
  if keep_ix.isEmpty then .error .noPositiveArea
  else
    .ok (keep_ix.map (fun i => boxes.getD i default),
         keep_ix.map (fun i => class_ids.getD i 0),
         keep_ix.map (fun i => masks.getD i md),
         keep_ix.map (fun i => scores.getD i 0))

/-- `unmold_masks` (utils.py lines 591-601): `unmold_mask` applied to each
surviving (mask, box) pair.  The per-mask bilinear upsample and threshold
(`unmold_mask`) is kept abstract as the parameter `unmold_one`; the claims
about `unmold_detections` concern which masks survive and how they stay
aligned, not the pixel values. -/
def unmold_masks {μ ν : Type} (unmold_one : μ → IntBox → ν)
    (masks : List μ) (boxes : List IntBox) : List ν :=
  List.zipWith unmold_one masks boxes

/-- `unmold_boxes` (utils.py lines 330-359): map to the image domain,
truncate to `int32`, filter degenerate boxes (which can raise
`NoPositiveAreaError`), then unmold the surviving masks. -/
def unmold_boxes {μ ν : Type} (unmold_one : μ → IntBox → ν)
    (boxes : List Box) (class_ids : List ℤ) (masks : List μ)
    (imageH imageW : ℚ) (window : Box) (scores : List ℚ) (md : μ) :
    Except UnmoldError (List IntBox × List ℤ × List ℚ × List ν) :=
  let ib := boxes.map (fun b => truncBox (to_img_domain b window imageH imageW))
  match remove_zero_area ib class_ids masks scores md with
  | .error e => .error e
  | .ok (bs, cs, ms, ss) => .ok (bs, cs, ss, unmold_masks unmold_one ms bs)

/-- One row of the detection tensor `[N, (y1, x1, y2, x2, class_id,
score)]` consumed by `unmold_detections`. -/
structure Detection where
  box : Box
  class_id : ℤ
  score : ℚ

/-- `unmold_detections` (utils.py lines 272-298): split the detection rows
into boxes, class ids and scores, select each detection's class channel
from the raw mask tensor (`mrcnn_mask[arange(N), :, :, class_ids]`,
modelled as a function from class id to the channel), and hand everything
to `unmold_boxes`. -/
def unmold_detections {μ ν : Type} (unmold_one : μ → IntBox → ν)
    (detections : List Detection) (mrcnn_mask : List (ℤ → μ))
    (imageH imageW : ℚ) (window : Box) (md : μ) :
    Except UnmoldError (List IntBox × List ℤ × List ℚ × List ν) :=
  let boxes := detections.map (fun d => d.box)
  let class_ids := detections.map (fun d => d.class_id)
  let scores := detections.map (fun d => d.score)
  let masks := List.zipWith (fun d mm => mm d.class_id) detections mrcnn_mask
  unmold_boxes unmold_one boxes class_ids masks imageH imageW window scores md

/-- One row of the `dets` tensor handed to `pth_nms`
(`[N, (y1, x1, y2, x2, score)]`, pth_nms.py lines 11-15). -/
structure Det where
  y1 : ℚ
  x1 : ℚ
  y2 : ℚ
  x2 : ℚ
  score : ℚ
deriving DecidableEq

instance : Inhabited Det := ⟨⟨0, 0, 0, 0, 0⟩⟩

/-- The inclusive-extent IoU used by both NMS kernels: areas are
`(x2 - x1 + 1) * (y2 - y1 + 1)` (pth_nms.py line 16) and the intersection
uses the same `+1` convention. -/
def iouIncl (a b : Det) : ℚ :=
  let areaA := (a.x2 - a.x1 + 1) * (a.y2 - a.y1 + 1)
  let areaB := (b.x2 - b.x1 + 1) * (b.y2 - b.y1 + 1)
  let iw := max (min a.x2 b.x2 - max a.x1 b.x1 + 1) 0
  let ih := max (min a.y2 b.y2 - max a.y1 b.y1 + 1) 0
  let inter := iw * ih
  inter / (areaA + areaB - inter)

/-- The greedy suppression core shared by the two NMS kernels: walk the
candidate indices in the given sequence; keep an index iff no
already-kept index overlaps it with IoU above the threshold. -/
def nmsGreedy (get : ℕ → Det) (thresh : ℚ) (seq : List ℕ) : List ℕ :=
  seq.foldl
    (fun kept i =>
      if kept.all (fun j => iouIncl (get j) (get i) ≤ thresh) then
        kept ++ [i]
      else kept)
    []

/-- Modelled from the spec: the sequential strategy's kernel
`nms.cpu_nms` (the C extension `_ext.nms` is not in the repository; only
its caller `pth_nms` is).  Per §4.3 it is the greedy, score-ordered
reference: it receives the boxes in caller order together with the
score-descending index order, iterates in that order, and suppresses any
remaining box whose IoU with a kept box exceeds the threshold, returning
kept indices into the caller's ordering. -/
def cpu_nms (dets : List Det) (order : List ℕ) (thresh : ℚ) : List ℕ :=
  nmsGreedy (fun i => dets.getD i default) thresh order

/-- Modelled from the spec: the accelerated strategy's kernel
`nms.gpu_nms` (the CUDA extension is not in the repository).  Per §4.3 it
expects axis-swapped boxes already sorted by descending score and runs the
same greedy suppression over them in input order, returning kept positions
into its input. -/
def gpu_nms (dets : List Det) (thresh : ℚ) : List ℕ :=
  nmsGreedy (fun i => dets.getD i default) thresh (List.range dets.length)

/-- Stable insertion of index `i` into a score-descending list of indices
(ties keep the earlier index first). -/
def insertDesc (score : ℕ → ℚ) (i : ℕ) : List ℕ → List ℕ
  | [] => [i]
  | j :: rest =>
    if score j < score i then i :: j :: rest else j :: insertDesc score i rest

/-- `scores.sort(0, descending=True)[1]` (pth_nms.py line 17): the indices
of the scores in descending order. -/
def argsortDesc (score : ℕ → ℚ) (n : ℕ) : List ℕ :=
  (List.range n).foldl (fun acc i => insertDesc score i acc) []

/-- `dets[:, [1, 0, 3, 2, 4]]` (pth_nms.py line 28): swap the y and x
axes of a detection row; the score column stays. -/
def swapDet (d : Det) : Det := ⟨d.x1, d.y1, d.x2, d.y2, d.score⟩

/-- `pth_nms` (pth_nms.py lines 9-37), the strategy dispatcher.  CPU path:
hand the original-order boxes, the score order, and the inclusive areas to
`cpu_nms`.  GPU path, exactly as in the source: `dets_temp` is the
axis-swapped copy of `dets` in the ORIGINAL order (line 28); the sorted
copy `dets[order]` computed on line 30 is never passed to the kernel;
`gpu_nms` runs on `dets_temp`, and its kept positions are re-indexed
through `order` (line 37). -/
def pth_nms (dets : List Det) (thresh : ℚ) (is_cuda : Bool) : List ℕ :=
  let order := argsortDesc (fun i => (dets.getD i default).score) dets.length
  if !is_cuda then
    cpu_nms dets order thresh
  else
    let dets_temp := dets.map swapDet
    let keep := gpu_nms dets_temp thresh
    keep.map (fun k => order.getD k 0)

/-- A three-box input on which the GPU dispatch goes wrong: boxes 0 and 1
coincide (IoU 1) and box 2 is far away; the scores are not already in
descending order. -/
def nmsDemo : List Det :=
  [⟨0, 0, 10, 20, 1⟩, ⟨0, 0, 10, 20, 3⟩, ⟨100, 200, 110, 220, 2⟩]

/-- A pixel of a boolean mask, with numpy's rectangular-array indexing
modelled by out-of-range reads returning `false`. -/
def pixel (m : List (List Bool)) (i j : ℕ) : Bool :=
  (m.getD i []).getD j false

/-- `np.where(np.any(m, axis=0))[0]` (utils.py line 104): the column
indices that contain a set pixel, in increasing order. -/
def horizontal_indicies (m : List (List Bool)) (w : ℕ) : List ℕ :=
  (List.range w).filter (fun j => m.any (fun row => row.getD j false))

/-- `np.where(np.any(m, axis=1))[0]` (utils.py line 105): the row indices
that contain a set pixel, in increasing order. -/
def vertical_indicies (m : List (List Bool)) : List ℕ :=
  (List.range m.length).filter (fun i => (m.getD i []).any (fun b => b))

/-- The per-instance body of `extract_bboxes` (utils.py lines 101-116):
first/last set column and row with exclusive `+1` upper bounds, or the
all-zero box when the channel has no set pixel. -/
def extract_bbox (m : List (List Bool)) (w : ℕ) : ℕ × ℕ × ℕ × ℕ :=
  let hs := horizontal_indicies m w
  let vs := vertical_indicies m
  if hs.isEmpty then (0, 0, 0, 0)
  else (vs.headD 0, hs.headD 0, vs.getLastD 0 + 1, hs.getLastD 0 + 1)

/-- `extract_bboxes` (utils.py lines 94-117).  The source tensor is
`[height, width, num_instances]`; we model it instance-major as a list of
`height × width` boolean masks, which carries the same data. -/
def extract_bboxes (masks : List (List (List Bool))) (w : ℕ) :
    List (ℕ × ℕ × ℕ × ℕ) :=
  masks.map (fun m => extract_bbox m w)

/-- The image-domain integer box of one detection inside
`unmold_boxes`: `to_img_domain(...).to(torch.int32)`. -/
def imgBox (window : Box) (H W : ℚ) (d : Detection) : IntBox :=
  truncBox (to_img_domain d.box window H W)

/-- Whether `remove_zero_area` keeps a detection: none of the three
degeneracy predicates fires on its image-domain box. -/
def keptDet (window : Box) (H W : ℚ) (d : Detection) : Bool :=
  !skipBox (imgBox window H W d)

/-- Arbitrary default element for reading a `(detection, mask-channel)`
pair out of a zipped list (never used at in-range indices). -/
def dqDefault {μ : Type} (md : μ) : Detection × (ℤ → μ) :=
  (⟨⟨0, 0, 0, 0⟩, 0, 0⟩, fun _ => md)

/-- Three raw detections for the C2 scenario: the middle box has zero
width (`x1 = x2 = 0`), the other two are valid. -/
def demoDets : List Detection :=
  [⟨⟨0, 0, 5, 5⟩, 1, 9/10⟩, ⟨⟨0, 0, 5, 0⟩, 1, 8/10⟩, ⟨⟨0, 0, 7, 8⟩, 2, 7/10⟩]

/-- Per-detection raw mask channels for the C2 scenario. -/
def demoMM : List (ℤ → ℤ) := [fun _ => 1, fun _ => 2, fun _ => 3]

/-- A concrete stand-in for the per-mask unmolding function in the C2
scenario. -/
def demoUnmold : ℤ → IntBox → ℤ := fun m b => m + b.y2

/-- A two-instance mask stack for the C10 witness: instance 0 has set
pixels, instance 1 is empty. -/
def demoMasks : List (List (List Bool)) :=
  [[[false, true], [true, true]], [[false, false], [false, false]]]

theorem interArea_comm (a b : Box) : interArea a b = interArea b a := by
  unfold interArea
  rw [min_comm a.x2, max_comm a.x1, min_comm a.y2, max_comm a.y1]

theorem interArea_nonneg (a b : Box) : 0 ≤ interArea a b :=
  mul_nonneg (le_max_right _ _) (le_max_right _ _)

theorem interArea_le_left (a b : Box) (hva : ValidBox a) :
    interArea a b ≤ boxArea a := by
  obtain ⟨hy, hx⟩ := hva
  have hmx : max (min a.x2 b.x2 - max a.x1 b.x1) 0 ≤ a.x2 - a.x1 := by
    apply max_le
    · have h1 : min a.x2 b.x2 ≤ a.x2 := min_le_left _ _
      have h2 : a.x1 ≤ max a.x1 b.x1 := le_max_left _ _
      linarith
    · linarith
  have hmy : max (min a.y2 b.y2 - max a.y1 b.y1) 0 ≤ a.y2 - a.y1 := by
    apply max_le
    · have h1 : min a.y2 b.y2 ≤ a.y2 := min_le_left _ _
      have h2 : a.y1 ≤ max a.y1 b.y1 := le_max_left _ _
      linarith
    · linarith
  have h0y : (0:ℚ) ≤ max (min a.y2 b.y2 - max a.y1 b.y1) 0 := le_max_right _ _
  unfold interArea boxArea
  calc max (min a.x2 b.x2 - max a.x1 b.x1) 0 *
        max (min a.y2 b.y2 - max a.y1 b.y1) 0
      ≤ (a.x2 - a.x1) * (a.y2 - a.y1) := mul_le_mul hmx hmy h0y (by linarith)
    _ = (a.y2 - a.y1) * (a.x2 - a.x1) := by ring

theorem interArea_le_right (a b : Box) (hvb : ValidBox b) :
    interArea a b ≤ boxArea b := by
  rw [interArea_comm]
  exact interArea_le_left b a hvb

/-- C3: for every box `b` with positive height and width and every delta
`d`, encoding the decoded box recovers `d` exactly: with `fexp` modelling
`torch.exp` and `flog` modelling `torch.log` (relation: `flog ∘ fexp = id`),
`box_refinement flog b (apply_box_deltas fexp b d) = d`.  Over exact
rational arithmetic the round trip is exact, which is the idealised form
of "equal within floating-point tolerance". -/
theorem box_refinement_apply_box_deltas_roundtrip
    (fexp flog : ℚ → ℚ) (hinv : ∀ x, flog (fexp x) = x)
    (b : Box) (d : Delta) (hh : 0 < b.y2 - b.y1) (hw : 0 < b.x2 - b.x1) :
    box_refinement flog b (apply_box_deltas fexp b d) = d := by
  have hh' : b.y2 - b.y1 ≠ 0 := ne_of_gt hh
  have hw' : b.x2 - b.x1 ≠ 0 := ne_of_gt hw
  unfold box_refinement apply_box_deltas
  simp only
  obtain ⟨dy, dx, dh, dw⟩ := d
  simp only [Delta.mk.injEq]
  refine ⟨?_, ?_, ?_, ?_⟩
  · field_simp
  · field_simp
  · rw [show (b.y1 + 0.5 * (b.y2 - b.y1) + dy * (b.y2 - b.y1) -
        0.5 * ((b.y2 - b.y1) * fexp dh) + (b.y2 - b.y1) * fexp dh -
        (b.y1 + 0.5 * (b.y2 - b.y1) + dy * (b.y2 - b.y1) -
        0.5 * ((b.y2 - b.y1) * fexp dh))) / (b.y2 - b.y1) = fexp dh by
      field_simp]
    exact hinv dh
  · rw [show (b.x1 + 0.5 * (b.x2 - b.x1) + dx * (b.x2 - b.x1) -
        0.5 * ((b.x2 - b.x1) * fexp dw) + (b.x2 - b.x1) * fexp dw -
        (b.x1 + 0.5 * (b.x2 - b.x1) + dx * (b.x2 - b.x1) -
        0.5 * ((b.x2 - b.x1) * fexp dw))) / (b.x2 - b.x1) = fexp dw by
      field_simp]
    exact hinv dw

/-- Witness for C3 at a concrete box and delta, with `fexp = flog = id`. -/
theorem box_refinement_apply_box_deltas_roundtrip_witness :
    (0:ℚ) < 1 ∧
    box_refinement id (Box.mk 0 0 1 1)
      (apply_box_deltas id (Box.mk 0 0 1 1) (Delta.mk 1 2 3 4)) =
      Delta.mk 1 2 3 4 :=
  ⟨by norm_num,
   box_refinement_apply_box_deltas_roundtrip id id (fun _ => rfl)
     (Box.mk 0 0 1 1) (Delta.mk 1 2 3 4) (by norm_num) (by norm_num)⟩

/-- C8: with the box invariant on both boxes, areas precomputed as the
caller does, and non-zero union, `compute_iou`'s scalar body is symmetric,
lies in `[0,1]`, equals 1 on identical boxes of positive area, and equals
0 on non-overlapping boxes. -/
theorem compute_iou_props (a b : Box) (hva : ValidBox a) (hvb : ValidBox b)
    (hU : boxArea a + boxArea b - interArea a b ≠ 0) :
    iouPair a b (boxArea a) (boxArea b) = iouPair b a (boxArea b) (boxArea a)
    ∧ 0 ≤ iouPair a b (boxArea a) (boxArea b)
    ∧ iouPair a b (boxArea a) (boxArea b) ≤ 1
    ∧ (a = b → 0 < boxArea a → iouPair a b (boxArea a) (boxArea b) = 1)
    ∧ (DisjointBoxes a b → iouPair a b (boxArea a) (boxArea b) = 0) := by
  have hIa := interArea_le_left a b hva
  have hIb := interArea_le_right a b hvb
  have hI0 := interArea_nonneg a b
  have hA0 : 0 ≤ boxArea a := by
    obtain ⟨hy, hx⟩ := hva
    exact mul_nonneg (by linarith) (by linarith)
  have hUpos : 0 < boxArea a + boxArea b - interArea a b := by
    rcases lt_or_eq_of_le
        (by linarith : (0:ℚ) ≤ boxArea a + boxArea b - interArea a b)
      with h | h
    · exact h
    · exact absurd h.symm hU
  refine ⟨?_, ?_, ?_, ?_, ?_⟩
  · unfold iouPair
    rw [interArea_comm a b]
    ring_nf
  · exact div_nonneg hI0 (le_of_lt hUpos)
  · unfold iouPair
    rw [div_le_one hUpos]
    linarith
  · rintro rfl hpos
    unfold iouPair interArea boxArea
    rw [min_self, min_self, max_self, max_self]
    rw [max_eq_left (by linarith [hva.2] : (0:ℚ) ≤ a.x2 - a.x1),
        max_eq_left (by linarith [hva.1] : (0:ℚ) ≤ a.y2 - a.y1)]
    unfold boxArea at hpos
    rw [show (a.y2 - a.y1) * (a.x2 - a.x1) + (a.y2 - a.y1) * (a.x2 - a.x1) -
        (a.x2 - a.x1) * (a.y2 - a.y1) = (a.x2 - a.x1) * (a.y2 - a.y1) by ring]
    exact div_self (by rw [mul_comm]; exact ne_of_gt hpos)
  · intro hd
    unfold iouPair
    have hz : interArea a b = 0 := by
      unfold interArea
      rcases hd with h | h
      · rw [max_eq_right (by linarith : min a.y2 b.y2 - max a.y1 b.y1 ≤ 0)]
        ring
      · rw [max_eq_right (by linarith : min a.x2 b.x2 - max a.x1 b.x1 ≤ 0)]
        ring
    rw [hz]
    exact zero_div _

/-- Witness for C8 at two concrete overlapping valid boxes. -/
theorem compute_iou_props_witness :
    (ValidBox (Box.mk 0 0 2 2) ∧ ValidBox (Box.mk 1 1 3 3) ∧
      boxArea (Box.mk 0 0 2 2) + boxArea (Box.mk 1 1 3 3) -
        interArea (Box.mk 0 0 2 2) (Box.mk 1 1 3 3) ≠ 0) ∧
    0 ≤ iouPair (Box.mk 0 0 2 2) (Box.mk 1 1 3 3)
        (boxArea (Box.mk 0 0 2 2)) (boxArea (Box.mk 1 1 3 3)) :=
  ⟨⟨by decide, by decide, by norm_num [boxArea, interArea]⟩,
   (compute_iou_props (Box.mk 0 0 2 2) (Box.mk 1 1 3 3)
      (by decide) (by decide) (by norm_num [boxArea, interArea])).2.1⟩

/-- C9: `to_img_domain` maps each coordinate to
`(coord - window_origin) * image_dim / window_extent` (stated
division-free against the window extents); and with `window = (0,0,10,10)`
and a `100×100` image every coordinate is scaled by exactly 10. -/
theorem to_img_domain_spec (b window : Box) (H W : ℚ)
    (hwh : 0 < window.y2 - window.y1) (hww : 0 < window.x2 - window.x1) :
    ((to_img_domain b window H W).y1 * (window.y2 - window.y1) =
        (b.y1 - window.y1) * H
      ∧ (to_img_domain b window H W).x1 * (window.x2 - window.x1) =
        (b.x1 - window.x1) * W
      ∧ (to_img_domain b window H W).y2 * (window.y2 - window.y1) =
        (b.y2 - window.y1) * H
      ∧ (to_img_domain b window H W).x2 * (window.x2 - window.x1) =
        (b.x2 - window.x1) * W)
    ∧ to_img_domain b (Box.mk 0 0 10 10) 100 100 =
        Box.mk (b.y1 * 10) (b.x1 * 10) (b.y2 * 10) (b.x2 * 10) := by
  have hwh' : window.y2 - window.y1 ≠ 0 := ne_of_gt hwh
  have hww' : window.x2 - window.x1 ≠ 0 := ne_of_gt hww
  constructor
  · unfold to_img_domain
    refine ⟨?_, ?_, ?_, ?_⟩ <;> (simp only; field_simp; try ring)
  · unfold to_img_domain
    simp only [Box.mk.injEq]
    norm_num

/-- Witness for C9 at a concrete box and window. -/
theorem to_img_domain_spec_witness :
    ((0:ℚ) < (Box.mk 0 0 10 10).y2 - (Box.mk 0 0 10 10).y1) ∧
    to_img_domain (Box.mk 1 2 3 4) (Box.mk 0 0 10 10) 100 100 =
      Box.mk 10 20 30 40 := by
  refine ⟨by norm_num, ?_⟩
  have h := (to_img_domain_spec (Box.mk 1 2 3 4) (Box.mk 0 0 10 10) 100 100
    (by norm_num) (by norm_num)).2
  rw [h]
  norm_num

/-- C4: `parse_image_meta` applied to the record built by
`compose_image_meta` reproduces exactly the input fields, for every valid
`(image_id, image_shape, window, active_class_ids)`: the encode is a
straight concatenation at fixed offsets and the decode slices the same
offsets. -/
theorem parse_compose_image_meta_roundtrip (image_id : ℤ)
    (image_shape : ℤ × ℤ × ℤ) (window : ℤ × ℤ × ℤ × ℤ)
    (active_class_ids : List ℤ) :
    parse_image_meta
      (compose_image_meta image_id image_shape window active_class_ids) =
      (image_id, image_shape, window, active_class_ids) := rfl

/-- C7: for every input image, `resize_image` in `pad64` mode with a
`min_dim` that is not a multiple of 64 fails with the geometry
precondition error (the `assert min_dim % 64 == 0`), never returning a
result. -/
theorem resize_pad64_not_multiple_of_64 (h w m : ℤ) (max_dim : Option ℤ)
    (min_scale : Option ℚ) (randY randX : ℤ) (hm : m % 64 ≠ 0) :
    resize_image h w (some m) max_dim min_scale "pad64" randY randX =
      Except.error ResizeError.geometryPrecondition := by
  simp only [resize_image]
  simp +decide only [if_true, if_false]
  rw [if_pos hm]

/-- Witness for C7 at a concrete image and `min_dim = 65`. -/
theorem resize_pad64_not_multiple_of_64_witness :
    (65 : ℤ) % 64 ≠ 0 ∧
    resize_image 5 7 (some 65) (some 128) none "pad64" 0 0 =
      Except.error ResizeError.geometryPrecondition :=
  ⟨by decide,
   resize_pad64_not_multiple_of_64 5 7 65 (some 128) none 0 0 (by decide)⟩

/-- C6: in `pad64` mode, `resize_image` chooses
`scale = min_dim / max(h, w)` — using `min_dim`, not `max_dim`, as the
target for the larger side, possibly scaling down — the `min_scale`
argument does not affect the result, and the scaled height is padded to
`min_dim` and the scaled width to `max_dim`, each split symmetrically
(the odd pixel goes to bottom/right).  `h1`/`w1` name the scaled
dimensions; `h1 ≤ m` and `w1 ≤ M` exclude the negative-padding
`ValueError` cases. -/
theorem resize_pad64_spec (h w m M : ℤ) (min_scale : Option ℚ)
    (randY randX : ℤ) (s : ℚ) (h1 w1 : ℤ)
    (hs : s = (m : ℚ) / ((max h w : ℤ) : ℚ))
    (hh1 : h1 = if s ≠ 1 then pyRound ((h : ℚ) * s) else h)
    (hw1 : w1 = if s ≠ 1 then pyRound ((w : ℚ) * s) else w)
    (hm : m % 64 = 0) (hhm : h1 ≤ m) (hwM : w1 ≤ M) :
    ∃ r, resize_image h w (some m) (some M) min_scale "pad64" randY randX =
        Except.ok r
      ∧ r.scale = s
      ∧ r.height = m
      ∧ r.width = M
      ∧ r.padding.1.1 + r.padding.1.2 = m - h1
      ∧ (r.padding.1.2 = r.padding.1.1 ∨ r.padding.1.2 = r.padding.1.1 + 1)
      ∧ r.padding.2.1.1 + r.padding.2.1.2 = M - w1
      ∧ (r.padding.2.1.2 = r.padding.2.1.1 ∨
          r.padding.2.1.2 = r.padding.2.1.1 + 1)
      ∧ r.crop = none
      ∧ (∀ ms', resize_image h w (some m) (some M) ms' "pad64" randY randX =
          resize_image h w (some m) (some M) min_scale "pad64" randY randX) := by
  have hind : ∀ ms',
      resize_image h w (some m) (some M) ms' "pad64" randY randX =
      resize_image h w (some m) (some M) min_scale "pad64" randY randX := by
    intro ms'
    simp only [resize_image]
    simp +decide [hm, if_true, if_false]
  simp only [resize_image]
  simp +decide [hm, if_true, if_false] at hh1 hw1 hs ⊢
  rw [← hs, ← hh1, ← hw1]
  have hfh : (m - h1).fdiv 2 = (m - h1) / 2 := Int.fdiv_eq_ediv _ (by norm_num)
  have hfw : (M - w1).fdiv 2 = (M - w1) / 2 := Int.fdiv_eq_ediv _ (by norm_num)
  rw [hfh, hfw]
  set T := (if m = h1 then 0 else (m - h1) / 2) with hT
  set B := (if m = h1 then 0 else m - h1 - (m - h1) / 2) with hB
  set L := (if M = w1 then 0 else (M - w1) / 2) with hL
  set R := (if M = w1 then 0 else M - w1 - (M - w1) / 2) with hR
  have hT0 : 0 ≤ T := by rw [hT]; split <;> omega
  have hB0 : 0 ≤ B := by rw [hB]; split <;> omega
  have hL0 : 0 ≤ L := by rw [hL]; split <;> omega
  have hR0 : 0 ≤ R := by rw [hR]; split <;> omega
  have hTB : T + B = m - h1 := by
    rw [hT, hB]; by_cases hc : m = h1 <;> simp [hc] <;> omega
  have hLR : L + R = M - w1 := by
    rw [hL, hR]; by_cases hc : M = w1 <;> simp [hc] <;> omega
  have hBT : B = T ∨ B = T + 1 := by
    rw [hT, hB]; by_cases hc : m = h1 <;> simp [hc] <;> omega
  have hRL : R = L ∨ R = L + 1 := by
    rw [hL, hR]; by_cases hc : M = w1 <;> simp [hc] <;> omega
  rw [if_neg (by omega)]
  refine ⟨_, rfl, ?_⟩
  dsimp only
  refine ⟨rfl, by omega, by omega, by omega, hBT, by omega, hRL, rfl⟩

/-- Witness for C6: a `100×50` image with `min_dim = 128`,
`max_dim = 256`. -/
theorem resize_pad64_spec_witness :
    ((128 : ℤ) % 64 = 0 ∧ (128 : ℤ) ≤ 128 ∧ (64 : ℤ) ≤ 256) ∧
    (∃ r, resize_image 100 50 (some 128) (some 256) none "pad64" 0 0 =
        Except.ok r
      ∧ r.scale = 32/25
      ∧ r.height = 128
      ∧ r.width = 256
      ∧ r.padding.1.1 + r.padding.1.2 = 128 - 128
      ∧ (r.padding.1.2 = r.padding.1.1 ∨ r.padding.1.2 = r.padding.1.1 + 1)
      ∧ r.padding.2.1.1 + r.padding.2.1.2 = 256 - 64
      ∧ (r.padding.2.1.2 = r.padding.2.1.1 ∨
          r.padding.2.1.2 = r.padding.2.1.1 + 1)
      ∧ r.crop = none
      ∧ (∀ ms', resize_image 100 50 (some 128) (some 256) ms' "pad64" 0 0 =
          resize_image 100 50 (some 128) (some 256) none "pad64" 0 0)) :=
  ⟨⟨by decide, by decide, by decide⟩,
   resize_pad64_spec 100 50 128 256 none 0 0 (32/25) 128 64
     (by norm_num) (by norm_num [pyRound]) (by norm_num [pyRound])
     (by decide) (by decide) (by decide)⟩

/-- `pyRound` is the identity on integers. -/
theorem pyRound_intCast (n : ℤ) : pyRound ((n : ℤ) : ℚ) = n := by
  unfold pyRound
  norm_num

/-- C5: `resize_image` in `square` mode on a `100×50` image with
`max_dim = 128` (and any `min_dim ≥ 64`, so that the `max_dim` cap
determines the scale) returns a `128×128` image, `scale = 1.28 = 32/25`,
and the window `(0, 32, 128, 96)` — the `128×64` unpadded region placed
with symmetric padding (no odd pixel here) — whose height/width ratio
`128/64` equals the original `100/50`. -/
theorem resize_square_100_50 (md : ℤ) (hmd : 64 ≤ md) (randY randX : ℤ) :
    resize_image 100 50 (some md) (some 128) none "square" randY randX =
      Except.ok ⟨128, 128, (0, 32, 128, 96), 32/25,
        ((0, 0), (32, 32), (0, 0)), none⟩
    ∧ ((128:ℤ) - 0) * 50 = (96 - 32) * 100 := by
  refine ⟨?_, by norm_num⟩
  have ht : truthyInt (some md) = true := by
    simp [truthyInt]
    omega
  have h100 : ((100:ℤ) ⊔ 50) = 100 := by decide
  have h50 : ((100:ℤ) ⊓ 50) = 50 := by decide
  have hsc : (1 : ℚ) ⊔ ((md:ℤ):ℚ)/(((50:ℤ)):ℚ) = ((md:ℤ):ℚ)/(((50:ℤ)):ℚ) := by
    rw [max_eq_right]
    rw [le_div_iff (by norm_num : (0:ℚ) < ((50:ℤ):ℚ))]
    have hc : (64:ℚ) ≤ (md:ℚ) := by exact_mod_cast hmd
    push_cast
    linarith
  have h2md : (((100:ℤ)):ℚ) * (((md:ℤ):ℚ)/(((50:ℤ)):ℚ)) = ((2*md : ℤ) : ℚ) := by
    push_cast
    ring
  simp only [resize_image]
  simp +decide only [if_true, if_false, Option.getD_some, ht, h100, h50, true_and, and_true]
  simp only [hsc, h2md, pyRound_intCast]
  by_cases hcap : (128:ℤ) < 2 * md
  · have ha : ((100:ℤ):ℚ) * (((128:ℤ):ℚ)/((100:ℤ):ℚ)) = ((128:ℤ):ℚ) := by
      norm_num
    have hb : ((50:ℤ):ℚ) * (((128:ℤ):ℚ)/((100:ℤ):ℚ)) = ((64:ℤ):ℚ) := by
      norm_num
    have hne : (((128:ℤ):ℚ)/((100:ℤ):ℚ)) ≠ 1 := by norm_num
    simp only [if_pos hcap, hne, ha, hb, pyRound_intCast, if_true,
      ne_eq, not_false_eq_true]
    have hf1 : ((128:ℤ) - 128).fdiv 2 = 0 := by decide
    have hf2 : ((128:ℤ) - 64).fdiv 2 = 32 := by decide
    simp only [hf1, hf2]
    norm_num
  · have hmd64 : md = 64 := by omega
    subst hmd64
    have ha : ((100:ℤ):ℚ) * (((64:ℤ):ℚ)/((50:ℤ):ℚ)) = ((128:ℤ):ℚ) := by
      norm_num
    have hb : ((50:ℤ):ℚ) * (((64:ℤ):ℚ)/((50:ℤ):ℚ)) = ((64:ℤ):ℚ) := by
      norm_num
    have hne : (((64:ℤ):ℚ)/((50:ℤ):ℚ)) ≠ 1 := by norm_num
    simp only [if_neg hcap, hne, ha, hb, pyRound_intCast, if_true,
      ne_eq, not_false_eq_true]
    have hf1 : ((128:ℤ) - 128).fdiv 2 = 0 := by decide
    have hf2 : ((128:ℤ) - 64).fdiv 2 = 32 := by decide
    simp only [hf1, hf2]
    norm_num

/-- Witness for C5 at `min_dim = 128`. -/
theorem resize_square_100_50_witness :
    (64:ℤ) ≤ 128 ∧
    (resize_image 100 50 (some 128) (some 128) none "square" 0 0 =
      Except.ok ⟨128, 128, (0, 32, 128, 96), 32/25,
        ((0, 0), (32, 32), (0, 0)), none⟩
    ∧ ((128:ℤ) - 0) * 50 = (96 - 32) * 100) :=
  ⟨by decide, resize_square_100_50 128 (by decide) 0 0⟩

/-- C1 (refuted by the code; the spec describes the intent): on the
concrete three-box input `nmsDemo` with threshold `0`, the sequential
(CPU) path keeps `{1, 2}` but the accelerated (GPU) dispatch returns
`{1, 0}`: because `pth_nms` hands the kernel the axis-swapped boxes in
ORIGINAL order (the score-sorted copy built on line 30 is never used) and
then re-indexes through the sort order anyway, the two strategies
disagree, and the GPU kept set even contains boxes 0 and 1 whose mutual
IoU (`= 1`) exceeds the threshold. -/
theorem pth_nms_gpu_dispatch_bug :
    pth_nms nmsDemo 0 false = [1, 2]
    ∧ pth_nms nmsDemo 0 true = [1, 0]
    ∧ ¬ (∀ i : ℕ, i ∈ pth_nms nmsDemo 0 true ↔ i ∈ pth_nms nmsDemo 0 false)
    ∧ 0 ∈ pth_nms nmsDemo 0 true ∧ 1 ∈ pth_nms nmsDemo 0 true
    ∧ 0 < iouIncl (nmsDemo.getD 0 default) (nmsDemo.getD 1 default) := by
  have horder : argsortDesc (fun i => (nmsDemo.getD i default).score)
      nmsDemo.length = [1, 2, 0] := by decide
  have h1 : pth_nms nmsDemo 0 false = [1, 2] := by
    simp only [pth_nms, Bool.not_false, if_true, horder, cpu_nms, nmsGreedy]
    norm_num [nmsDemo, iouIncl, min_def, max_def]
  have h2 : pth_nms nmsDemo 0 true = [1, 0] := by
    simp only [pth_nms, Bool.not_true, if_false, horder, gpu_nms, nmsGreedy]
    norm_num [nmsDemo, iouIncl, swapDet, min_def, max_def, List.range_succ]
  refine ⟨h1, h2, ?_, ?_, ?_, ?_⟩
  · intro hall
    have h0 := hall 0
    rw [h1, h2] at h0
    simp at h0
  · rw [h2]
    decide
  · rw [h2]
    decide
  · have hd0 : nmsDemo.getD 0 default = ⟨0, 0, 10, 20, 1⟩ := rfl
    have hd1 : nmsDemo.getD 1 default = ⟨0, 0, 10, 20, 3⟩ := rfl
    rw [hd0, hd1]
    norm_num [iouIncl, min_def, max_def]

/-- `List.zipWith` over two maps of the same index list is a single map. -/
theorem zipWith_map_same {A B C : Type} (f : A → B → C) (l : List ℕ)
    (g : ℕ → A) (h : ℕ → B) :
    List.zipWith f (l.map g) (l.map h) = l.map (fun i => f (g i) (h i)) := by
  induction l with
  | nil => rfl
  | cons a l ih => simp [ih]

/-- `unmold_detections` re-expressed with every list read through the
zipped `(detection, mask-channel)` list: the kept indices are the filtered
range, and each output is a map over those indices. -/
theorem unmold_detections_emb {μ ν : Type} (unmold_one : μ → IntBox → ν)
    (dets : List Detection) (mm : List (ℤ → μ)) (H W : ℚ) (window : Box)
    (md : μ) (hlen : mm.length = dets.length) :
    unmold_detections unmold_one dets mm H W window md =
      (if ((List.range (dets.zip mm).length).filter
            (fun i => keptDet window H W (((dets.zip mm).getD i (dqDefault md)).1))).isEmpty
       then Except.error UnmoldError.noPositiveArea
       else Except.ok
        (((List.range (dets.zip mm).length).filter
            (fun i => keptDet window H W (((dets.zip mm).getD i (dqDefault md)).1))).map
            (fun i => imgBox window H W (((dets.zip mm).getD i (dqDefault md)).1)),
         ((List.range (dets.zip mm).length).filter
            (fun i => keptDet window H W (((dets.zip mm).getD i (dqDefault md)).1))).map
            (fun i => (((dets.zip mm).getD i (dqDefault md)).1).class_id),
         ((List.range (dets.zip mm).length).filter
            (fun i => keptDet window H W (((dets.zip mm).getD i (dqDefault md)).1))).map
            (fun i => (((dets.zip mm).getD i (dqDefault md)).1).score),
         ((List.range (dets.zip mm).length).filter
            (fun i => keptDet window H W (((dets.zip mm).getD i (dqDefault md)).1))).map
            (fun i => unmold_one (((dets.zip mm).getD i (dqDefault md)).2
                (((dets.zip mm).getD i (dqDefault md)).1).class_id)
              (imgBox window H W (((dets.zip mm).getD i (dqDefault md)).1))))) := by
  have hql : (dets.zip mm).length = dets.length := by
    rw [List.length_zip, hlen, min_self]
  have hkeep : (List.filter
        (fun i => !skipBox ((List.map
            (fun b => truncBox (to_img_domain b window H W))
            (List.map (fun d => d.box) dets)).getD i default))
        (List.range (List.map (fun b => truncBox (to_img_domain b window H W))
            (List.map (fun d => d.box) dets)).length)) =
      (List.range (dets.zip mm).length).filter
        (fun i => keptDet window H W (((dets.zip mm).getD i (dqDefault md)).1)) := by
    rw [List.length_map, List.length_map, ← hql]
    apply List.filter_congr
    intro i hi
    have hi' : i < (dets.zip mm).length := List.mem_range.mp hi
    have hi2 : i < dets.length := by omega
    rw [List.getD_eq_getElem _ _ (by simpa using hi2), List.getElem_map,
      List.getElem_map]
    rw [List.getD_eq_getElem _ _ hi', List.getElem_zip]
    rfl
  simp only [unmold_detections, unmold_boxes, remove_zero_area, unmold_masks]
  rw [hkeep]
  set keep := (List.range (dets.zip mm).length).filter
      (fun i => keptDet window H W (((dets.zip mm).getD i (dqDefault md)).1))
    with hkdef
  have hmemlt : ∀ i ∈ keep, i < dets.length := by
    intro i hi
    rw [hkdef] at hi
    have := List.mem_range.mp (List.mem_of_mem_filter hi)
    omega
  have hbox : keep.map (fun i => (List.map
        (fun b => truncBox (to_img_domain b window H W))
        (List.map (fun d => d.box) dets)).getD i default) =
      keep.map (fun i => imgBox window H W (((dets.zip mm).getD i (dqDefault md)).1)) := by
    apply List.map_congr_left
    intro i hi
    have hi2 := hmemlt i hi
    rw [List.getD_eq_getElem _ _ (by simpa using hi2), List.getElem_map,
      List.getElem_map]
    rw [List.getD_eq_getElem _ _ (by omega), List.getElem_zip]
    rfl
  have hcls : keep.map (fun i => (List.map (fun d => d.class_id) dets).getD i 0) =
      keep.map (fun i => (((dets.zip mm).getD i (dqDefault md)).1).class_id) := by
    apply List.map_congr_left
    intro i hi
    have hi2 := hmemlt i hi
    rw [List.getD_eq_getElem _ _ (by simpa using hi2), List.getElem_map]
    rw [List.getD_eq_getElem _ _ (by omega), List.getElem_zip]
  have hscore : keep.map (fun i => (List.map (fun d => d.score) dets).getD i 0) =
      keep.map (fun i => (((dets.zip mm).getD i (dqDefault md)).1).score) := by
    apply List.map_congr_left
    intro i hi
    have hi2 := hmemlt i hi
    rw [List.getD_eq_getElem _ _ (by simpa using hi2), List.getElem_map]
    rw [List.getD_eq_getElem _ _ (by omega), List.getElem_zip]
  have hmask : keep.map (fun i =>
        (List.zipWith (fun d mm => mm d.class_id) dets mm).getD i md) =
      keep.map (fun i => (((dets.zip mm).getD i (dqDefault md)).2)
        ((((dets.zip mm).getD i (dqDefault md)).1).class_id)) := by
    apply List.map_congr_left
    intro i hi
    have hi2 := hmemlt i hi
    have h5 : i < mm.length := by rw [hlen]; exact hi2
    have h3 : i < (dets.zip mm).length := by
      rw [List.length_zip, hlen, min_self]
      exact hi2
    have hiz : i < (List.zipWith (fun d mm => mm d.class_id) dets mm).length := by
      rw [List.length_zipWith, hlen, min_self]
      exact hi2
    rw [List.getD_eq_getElem _ _ hiz, List.getElem_zipWith]
    have hpair : (dets.zip mm).getD i (dqDefault md) =
        (dets.get ⟨i, hi2⟩, mm.get ⟨i, h5⟩) := by
      rw [List.getD_eq_getElem _ _ h3]
      exact List.getElem_zip
    simp only [hpair, List.get_eq_getElem]
  rw [hbox, hcls, hscore, hmask]
  by_cases hC : keep.isEmpty = true
  · simp only [hC, if_true]
  · simp only [hC, Bool.false_eq_true, if_false]
    rw [zipWith_map_same]

/-- Selecting by the indices of a filtered range equals filtering the
list itself and mapping. -/
theorem filter_range_select {α : Type} {β : Type} (q : List α) (p : α → Bool) (f : α → β)
    (dp df : α) :
    ((List.range q.length).filter (fun i => p (q.getD i dp))).map
      (fun i => f (q.getD i df)) = (q.filter p).map f := by
  induction q with
  | nil => simp
  | cons a q ih =>
    simp only [List.length_cons, List.range_succ_eq_map, List.filter_cons,
      List.getD_cons_zero]
    rw [List.filter_map]
    have hcomp : ((fun i => p ((a :: q).getD i dp)) ∘ Nat.succ) =
        (fun i => p (q.getD i dp)) := by
      funext i
      simp [List.getD_cons_succ]
    have hcomp2 : ((fun i => f ((a :: q).getD i df)) ∘ Nat.succ) =
        (fun i => f (q.getD i df)) := by
      funext i
      simp [List.getD_cons_succ]
    rw [hcomp]
    by_cases hpa : p a
    · rw [if_pos hpa, if_pos hpa]
      simp only [List.map_cons, List.getD_cons_zero, List.map_map, hcomp2, ih]
    · rw [if_neg hpa, if_neg hpa]
      simp only [List.map_map, hcomp2, ih]

/-- C2: `unmold_detections` drops exactly the detections whose
image-domain box fires one of the three degeneracy predicates
(non-positive area, height ≤ 2, width ≤ 2, unioned in `skipBox`): it
raises `NoPositiveAreaError` iff every detection is degenerate (never a
silent empty result), and otherwise returns the surviving boxes,
class ids, scores and unmolded masks, all equal to the same filter of the
zipped input applied index-aligned. -/
theorem unmold_detections_spec {μ ν : Type} (unmold_one : μ → IntBox → ν)
    (dets : List Detection) (mm : List (ℤ → μ)) (H W : ℚ) (window : Box)
    (md : μ) (hlen : mm.length = dets.length) :
    (unmold_detections unmold_one dets mm H W window md =
        Except.error UnmoldError.noPositiveArea
      ↔ ∀ d ∈ dets, keptDet window H W d = false)
    ∧ ((∃ d ∈ dets, keptDet window H W d = true) →
        unmold_detections unmold_one dets mm H W window md =
          Except.ok
            (((dets.zip mm).filter (fun x => keptDet window H W x.1)).map
                (fun x => imgBox window H W x.1),
             ((dets.zip mm).filter (fun x => keptDet window H W x.1)).map
                (fun x => x.1.class_id),
             ((dets.zip mm).filter (fun x => keptDet window H W x.1)).map
                (fun x => x.1.score),
             ((dets.zip mm).filter (fun x => keptDet window H W x.1)).map
                (fun x => unmold_one (x.2 x.1.class_id)
                  (imgBox window H W x.1)))) := by
  have hql : (dets.zip mm).length = dets.length := by
    rw [List.length_zip, hlen, min_self]
  have hallfalse :
      (∀ i ∈ List.range (dets.zip mm).length,
          keptDet window H W (((dets.zip mm).getD i (dqDefault md)).1) = false)
        ↔ ∀ d ∈ dets, keptDet window H W d = false := by
    constructor
    · intro h d hd
      obtain ⟨i, hi, rfl⟩ := List.mem_iff_getElem.mp hd
      have h3 : i < (dets.zip mm).length := by rw [hql]; exact hi
      have hh := h i (List.mem_range.mpr h3)
      rwa [List.getD_eq_getElem _ _ h3, List.getElem_zip] at hh
    · intro h i hi
      have h3 := List.mem_range.mp hi
      have hi2 : i < dets.length := by rw [← hql]; exact h3
      rw [List.getD_eq_getElem _ _ h3, List.getElem_zip]
      exact h _ (List.getElem_mem hi2)
  have hkeepnil :
      (((List.range (dets.zip mm).length).filter
          (fun i => keptDet window H W
            (((dets.zip mm).getD i (dqDefault md)).1))) = [])
        ↔ ∀ d ∈ dets, keptDet window H W d = false := by
    rw [List.filter_eq_nil_iff]
    rw [← hallfalse]
    constructor
    · intro h i hi
      have hh := h i hi
      rwa [Bool.not_eq_true] at hh
    · intro h i hi
      rw [Bool.not_eq_true]
      exact h i hi
  rw [unmold_detections_emb unmold_one dets mm H W window md hlen]
  constructor
  · by_cases hC : ((List.range (dets.zip mm).length).filter
        (fun i => keptDet window H W
          (((dets.zip mm).getD i (dqDefault md)).1))).isEmpty = true
    · rw [if_pos hC]
      simp only [true_iff]
      exact hkeepnil.mp (List.isEmpty_iff.mp hC)
    · rw [if_neg hC]
      constructor
      · intro h
        exact absurd h (by simp)
      · intro h
        exact absurd (List.isEmpty_iff.mpr (hkeepnil.mpr h)) hC
  · rintro ⟨d, hd, hkept⟩
    have hne : ¬ (∀ d ∈ dets, keptDet window H W d = false) := by
      intro hall
      rw [hall d hd] at hkept
      exact Bool.false_ne_true hkept
    have hC : ((List.range (dets.zip mm).length).filter
        (fun i => keptDet window H W
          (((dets.zip mm).getD i (dqDefault md)).1))).isEmpty = false := by
      rw [Bool.eq_false_iff]
      intro hC
      exact hne (hkeepnil.mp (List.isEmpty_iff.mp hC))
    rw [hC]
    simp only [Bool.false_eq_true, if_false]
    rw [filter_range_select (dets.zip mm) (fun x => keptDet window H W x.1)
        (fun x => imgBox window H W x.1) (dqDefault md) (dqDefault md),
      filter_range_select (dets.zip mm) (fun x => keptDet window H W x.1)
        (fun x => x.1.class_id) (dqDefault md) (dqDefault md),
      filter_range_select (dets.zip mm) (fun x => keptDet window H W x.1)
        (fun x => x.1.score) (dqDefault md) (dqDefault md),
      filter_range_select (dets.zip mm) (fun x => keptDet window H W x.1)
        (fun x => unmold_one (x.2 x.1.class_id) (imgBox window H W x.1))
        (dqDefault md) (dqDefault md)]


/-- Witness for C2: of the three demo detections, the zero-width one is
dropped and the other two survive index-aligned. -/
theorem unmold_detections_spec_witness :
    demoMM.length = demoDets.length ∧
    unmold_detections demoUnmold demoDets demoMM 10 10 (Box.mk 0 0 10 10) 0 =
      Except.ok
        (((demoDets.zip demoMM).filter
            (fun x => keptDet (Box.mk 0 0 10 10) 10 10 x.1)).map
            (fun x => imgBox (Box.mk 0 0 10 10) 10 10 x.1),
         ((demoDets.zip demoMM).filter
            (fun x => keptDet (Box.mk 0 0 10 10) 10 10 x.1)).map
            (fun x => x.1.class_id),
         ((demoDets.zip demoMM).filter
            (fun x => keptDet (Box.mk 0 0 10 10) 10 10 x.1)).map
            (fun x => x.1.score),
         ((demoDets.zip demoMM).filter
            (fun x => keptDet (Box.mk 0 0 10 10) 10 10 x.1)).map
            (fun x => demoUnmold (x.2 x.1.class_id)
              (imgBox (Box.mk 0 0 10 10) 10 10 x.1))) :=
  ⟨rfl,
   (unmold_detections_spec demoUnmold demoDets demoMM 10 10
      (Box.mk 0 0 10 10) 0 rfl).2
     ⟨⟨⟨0, 0, 5, 5⟩, 1, 9/10⟩, by simp [demoDets],
      by norm_num [keptDet, imgBox, to_img_domain, truncBox, truncQ,
        skipBox]⟩⟩

theorem sorted_headD_le (l : List ℕ) (hl : l.Pairwise (· < ·))
    (x : ℕ) (hx : x ∈ l) : l.headD 0 ≤ x := by
  cases l with
  | nil => cases hx
  | cons a t =>
    rcases List.mem_cons.mp hx with rfl | hxt
    · exact le_refl _
    · exact le_of_lt ((List.pairwise_cons.mp hl).1 x hxt)

theorem le_sorted_getLastD : ∀ (l : List ℕ) (d : ℕ),
    l.Pairwise (· < ·) → ∀ x ∈ l, x ≤ l.getLastD d := by
  intro l
  induction l with
  | nil => intro d _ x hx; cases hx
  | cons a t ih =>
    intro d hp x hx
    rw [List.getLastD_cons]
    rcases List.mem_cons.mp hx with rfl | hxt
    · cases t with
      | nil => exact le_refl _
      | cons b t2 =>
        have hab : x < b := (List.pairwise_cons.mp hp).1 b (by simp)
        have hb := ih x (List.pairwise_cons.mp hp).2 b (by simp)
        omega
    · exact ih a (List.pairwise_cons.mp hp).2 x hxt

theorem headD_mem (l : List ℕ) (hl : l ≠ []) : l.headD 0 ∈ l := by
  cases l with
  | nil => exact absurd rfl hl
  | cons a t => simp

theorem getLastD_mem : ∀ (l : List ℕ), l ≠ [] → ∀ d : ℕ, l.getLastD d ∈ l := by
  intro l
  induction l with
  | nil => intro h; exact absurd rfl h
  | cons a t ih =>
    intro _ d
    rw [List.getLastD_cons]
    cases t with
    | nil => simp
    | cons b t2 =>
      exact List.mem_cons_of_mem _ (ih (by simp) a)

theorem pixel_lt_length {m : List (List Bool)} {i j : ℕ}
    (h : pixel m i j = true) : i < m.length := by
  by_contra hc
  rw [pixel, List.getD_eq_default _ _ (le_of_not_lt hc)] at h
  simp at h

theorem pixel_col_lt {m : List (List Bool)} {i j : ℕ}
    (h : pixel m i j = true) : j < (m.getD i []).length := by
  by_contra hc
  rw [pixel, List.getD_eq_default _ _ (le_of_not_lt hc)] at h
  exact Bool.false_ne_true h

theorem mem_horizontal_iff {m : List (List Bool)} {w : ℕ}
    (hrect : ∀ row ∈ m, row.length = w) (j : ℕ) :
    j ∈ horizontal_indicies m w ↔ ∃ i, pixel m i j = true := by
  rw [horizontal_indicies, List.mem_filter, List.mem_range]
  constructor
  · rintro ⟨hj, hany⟩
    obtain ⟨row, hrow, hr⟩ := List.any_eq_true.mp hany
    obtain ⟨i, hi, rfl⟩ := List.mem_iff_getElem.mp hrow
    refine ⟨i, ?_⟩
    rw [pixel, List.getD_eq_getElem _ _ hi]
    exact hr
  · rintro ⟨i, hp⟩
    have hil := pixel_lt_length hp
    have hjl := pixel_col_lt hp
    have hrow : m.getD i [] ∈ m := by
      rw [List.getD_eq_getElem _ _ hil]
      exact List.getElem_mem hil
    refine ⟨?_, List.any_eq_true.mpr ⟨m.getD i [], hrow, hp⟩⟩
    rw [hrect _ hrow] at hjl
    exact hjl

theorem mem_vertical_iff {m : List (List Bool)} (i : ℕ) :
    i ∈ vertical_indicies m ↔ ∃ j, pixel m i j = true := by
  rw [vertical_indicies, List.mem_filter, List.mem_range]
  constructor
  · rintro ⟨hi, hany⟩
    obtain ⟨b, hb, hbt⟩ := List.any_eq_true.mp hany
    obtain ⟨j, hj, rfl⟩ := List.mem_iff_getElem.mp hb
    refine ⟨j, ?_⟩
    rw [pixel, List.getD_eq_getElem _ _ hj]
    exact hbt
  · rintro ⟨j, hp⟩
    have hil := pixel_lt_length hp
    have hjl := pixel_col_lt hp
    refine ⟨hil, List.any_eq_true.mpr ⟨(m.getD i []).getD j false, ?_, hp⟩⟩
    rw [List.getD_eq_getElem _ _ hjl]
    exact List.getElem_mem hjl

/-- Per-channel specification of `extract_bboxes`: tight bounding box
with exclusive upper bounds, or the all-zero box for an empty channel. -/
theorem extract_bbox_spec (m : List (List Bool)) (w : ℕ)
    (hrect : ∀ row ∈ m, row.length = w) :
    (∀ i j, pixel m i j = true →
      (extract_bbox m w).1 ≤ i ∧ i < (extract_bbox m w).2.2.1 ∧
      (extract_bbox m w).2.1 ≤ j ∧ j < (extract_bbox m w).2.2.2)
    ∧ ((∃ i j, pixel m i j = true) →
        (∃ j, pixel m (extract_bbox m w).1 j = true) ∧
        (∃ j, pixel m ((extract_bbox m w).2.2.1 - 1) j = true) ∧
        (∃ i, pixel m i (extract_bbox m w).2.1 = true) ∧
        (∃ i, pixel m i ((extract_bbox m w).2.2.2 - 1) = true))
    ∧ ((∀ i j, pixel m i j = false) → extract_bbox m w = (0, 0, 0, 0)) := by
  have hsort : (horizontal_indicies m w).Pairwise (· < ·) :=
    (List.pairwise_lt_range w).filter _
  have vsort : (vertical_indicies m).Pairwise (· < ·) :=
    (List.pairwise_lt_range m.length).filter _
  refine ⟨?_, ?_, ?_⟩
  · intro i j hp
    have hj : j ∈ horizontal_indicies m w :=
      (mem_horizontal_iff hrect j).mpr ⟨i, hp⟩
    have hi : i ∈ vertical_indicies m :=
      (mem_vertical_iff i).mpr ⟨j, hp⟩
    have hsne : ¬ (horizontal_indicies m w).isEmpty = true := by
      rw [List.isEmpty_iff]
      intro hnil
      rw [hnil] at hj
      cases hj
    rw [extract_bbox, if_neg hsne]
    dsimp only
    refine ⟨sorted_headD_le _ vsort i hi, ?_,
      sorted_headD_le _ hsort j hj, ?_⟩
    · have := le_sorted_getLastD _ 0 vsort i hi
      omega
    · have := le_sorted_getLastD _ 0 hsort j hj
      omega
  · rintro ⟨i, j, hp⟩
    have hj : j ∈ horizontal_indicies m w :=
      (mem_horizontal_iff hrect j).mpr ⟨i, hp⟩
    have hi : i ∈ vertical_indicies m :=
      (mem_vertical_iff i).mpr ⟨j, hp⟩
    have hhne : horizontal_indicies m w ≠ [] := by
      intro hnil
      rw [hnil] at hj
      cases hj
    have hvne : vertical_indicies m ≠ [] := by
      intro hnil
      rw [hnil] at hi
      cases hi
    have hsne : ¬ (horizontal_indicies m w).isEmpty = true := by
      rw [List.isEmpty_iff]
      exact hhne
    rw [extract_bbox, if_neg hsne]
    dsimp only
    refine ⟨?_, ?_, ?_, ?_⟩
    · exact (mem_vertical_iff _).mp (headD_mem _ hvne)
    · have : (vertical_indicies m).getLastD 0 ∈ vertical_indicies m :=
        getLastD_mem _ hvne 0
      simpa using (mem_vertical_iff _).mp this
    · exact (mem_horizontal_iff hrect _).mp (headD_mem _ hhne)
    · have : (horizontal_indicies m w).getLastD 0 ∈ horizontal_indicies m w :=
        getLastD_mem _ hhne 0
      simpa using (mem_horizontal_iff hrect _).mp this
  · intro hall
    have hnil : horizontal_indicies m w = [] := by
      by_contra hne
      obtain ⟨j, hj⟩ := List.exists_mem_of_ne_nil _ hne
      obtain ⟨i, hp⟩ := (mem_horizontal_iff hrect j).mp hj
      rw [hall i j] at hp
      exact Bool.false_ne_true hp
    rw [extract_bbox, if_pos (List.isEmpty_iff.mpr hnil)]

/-- C10: for every mask stack, `extract_bboxes` gives each instance the
tight bounding box of its set pixels with exclusive upper bounds — every
set pixel lies in `[y1, y2) × [x1, x2)`, and each of the four edges
touches a set pixel — while an instance with no set pixel gets the
degenerate box `(0, 0, 0, 0)` instead of a failure. -/
theorem extract_bboxes_spec (masks : List (List (List Bool))) (w : ℕ)
    (hrect : ∀ m ∈ masks, ∀ row ∈ m, row.length = w)
    (k : ℕ) (hk : k < masks.length) :
    (∀ i j, pixel (masks.getD k []) i j = true →
      ((extract_bboxes masks w).getD k (0, 0, 0, 0)).1 ≤ i ∧
      i < ((extract_bboxes masks w).getD k (0, 0, 0, 0)).2.2.1 ∧
      ((extract_bboxes masks w).getD k (0, 0, 0, 0)).2.1 ≤ j ∧
      j < ((extract_bboxes masks w).getD k (0, 0, 0, 0)).2.2.2)
    ∧ ((∃ i j, pixel (masks.getD k []) i j = true) →
        (∃ j, pixel (masks.getD k [])
          ((extract_bboxes masks w).getD k (0, 0, 0, 0)).1 j = true) ∧
        (∃ j, pixel (masks.getD k [])
          (((extract_bboxes masks w).getD k (0, 0, 0, 0)).2.2.1 - 1) j = true) ∧
        (∃ i, pixel (masks.getD k []) i
          ((extract_bboxes masks w).getD k (0, 0, 0, 0)).2.1 = true) ∧
        (∃ i, pixel (masks.getD k []) i
          (((extract_bboxes masks w).getD k (0, 0, 0, 0)).2.2.2 - 1) = true))
    ∧ ((∀ i j, pixel (masks.getD k []) i j = false) →
        (extract_bboxes masks w).getD k (0, 0, 0, 0) = (0, 0, 0, 0)) := by
  have he : (extract_bboxes masks w).getD k (0, 0, 0, 0) =
      extract_bbox (masks.getD k []) w := by
    rw [extract_bboxes, List.getD_eq_getElem _ _ (by simpa using hk),
      List.getElem_map, List.getD_eq_getElem _ _ hk]
  have hmem : masks.getD k [] ∈ masks := by
    rw [List.getD_eq_getElem _ _ hk]
    exact List.getElem_mem hk
  rw [he]
  exact extract_bbox_spec (masks.getD k []) w (hrect _ hmem)


/-- Witness for C10 on the two-instance demo mask stack. -/
theorem extract_bboxes_spec_witness :
    ((∀ m ∈ demoMasks, ∀ row ∈ m, row.length = 2) ∧ 0 < demoMasks.length) ∧
    (∀ i j, pixel (demoMasks.getD 0 []) i j = true →
      ((extract_bboxes demoMasks 2).getD 0 (0, 0, 0, 0)).1 ≤ i ∧
      i < ((extract_bboxes demoMasks 2).getD 0 (0, 0, 0, 0)).2.2.1 ∧
      ((extract_bboxes demoMasks 2).getD 0 (0, 0, 0, 0)).2.1 ≤ j ∧
      j < ((extract_bboxes demoMasks 2).getD 0 (0, 0, 0, 0)).2.2.2) :=
  ⟨⟨by decide, by decide⟩,
   (extract_bboxes_spec demoMasks 2 (by decide) 0 (by decide)).1⟩

end MaskRCNN
